import Mathlib

/-!
Shallow embedding of the CHIP-8 interpreter core (src/chip8/mod.rs) and
verification of its specification.  Machine bytes are `Nat` with explicit
`% 256` where the Rust `u8` type or an `& 0xFF` mask bounds them, and the
12-bit masks `& 0xFFF` become `% 4096`.  Fixed-size Rust arrays become
total functions `Nat → Nat` (reads of `u8` cells take `% 256` to reflect
the cell type); the 16-entry key array is a `List Nat` so that its
bounds-checked indexing (a panic on overflow) is expressible.  A Rust
panic is modelled by `Option`: `none` is the aborted computation.
-/

/-- Pointwise update of a function-modelled byte array:
`arr[k] = v` on `arr : Nat → Nat`. -/
def updf (f : Nat → Nat) (k v : Nat) : Nat → Nat :=
  fun j => if j = k then v else f j

theorem updf_same (f : Nat → Nat) (k v : Nat) : updf f k v k = v := by
  simp [updf]

theorem updf_other (f : Nat → Nat) (k v j : Nat) (h : j ≠ k) : updf f k v j = f j := by
  simp [updf, h]

/-- The 80-byte built-in font table (`FONT` in the source). -/
def FONT : List Nat :=
  [0xF0, 0x90, 0x90, 0x90, 0xF0, 0x20, 0x60, 0x20, 0x20, 0x70, 0xF0, 0x10, 0xF0, 0x80, 0xF0, 0xF0,
   0x10, 0xF0, 0x10, 0xF0, 0x90, 0x90, 0xF0, 0x10, 0x10, 0xF0, 0x80, 0xF0, 0x10, 0xF0, 0xF0, 0x80,
   0xF0, 0x90, 0xF0, 0xF0, 0x10, 0x20, 0x40, 0x40, 0xF0, 0x90, 0xF0, 0x90, 0xF0, 0xF0, 0x90, 0xF0,
   0x10, 0xF0, 0xF0, 0x90, 0xF0, 0x90, 0x90, 0xE0, 0x90, 0xE0, 0x90, 0xE0, 0xF0, 0x80, 0x80, 0x80,
   0xF0, 0xE0, 0x90, 0x90, 0x90, 0xE0, 0xF0, 0x80, 0xF0, 0x80, 0xF0, 0xF0, 0x80, 0xF0, 0x80, 0x80]

/-- `struct IOState` of the source: key latches, RGBA display buffer
(8192 bytes, 4 per pixel), 4096-byte memory, call stack. -/
structure IOState where
  key_inputs : List Nat
  display_buffer : Nat → Nat
  memory : Nat → Nat
  stack : List Nat

/-- `struct CpuState` of the source. -/
structure CpuState where
  registers : Nat → Nat
  pc : Nat
  index : Nat
  sound_timer : Nat
  delay_timer : Nat
  waiting : Bool
  clock_speed : Nat

/-- `struct Chip8` of the source. -/
structure Chip8 where
  io : IOState
  cpu : CpuState

/-- `Chip8::new(clock_speed)`: font at 0..79, zero memory elsewhere, the
display filled with 255 and then every 4th byte (the alpha channel)
cleared, registers zero, `pc = 512`. -/
def Chip8.new (clock_speed : Nat) : Chip8 :=
  { io := { key_inputs := List.replicate 16 0,
            display_buffer := fun i => if (i + 1) % 4 = 0 then 0 else 255,
            memory := fun i => if i < 80 then FONT.getD i 0 else 0,
            stack := [] },
    cpu := { registers := fun _ => 0, pc := 512, index := 0, sound_timer := 0,
             delay_timer := 0, waiting := false, clock_speed := clock_speed } }

/-- The copy loop of `Chip8::load_rom`: `memory[i + 512] = buffer[i]` for
each byte in order.  Rust's indexing is bounds-checked against the 4096
length, so the loop stops with a panic (second component `true`) at the
first out-of-range write, keeping the writes made so far. -/
def load_loop : (Nat → Nat) → List Nat → Nat → ((Nat → Nat) × Bool)
  | mem, [], _ => (mem, false)
  | mem, b :: rest, i =>
    if i + 512 < 4096 then load_loop (updf mem (i + 512) (b % 256)) rest (i + 1)
    else (mem, true)

/-- `Chip8::load_rom` after the file has been read into `buffer`: the
returned flag is `true` when the copy loop panicked. -/
def load_rom (m : Chip8) (buffer : List Nat) : Chip8 × Bool :=
  let r := load_loop m.io.memory buffer 0
  ({ m with io := { m.io with memory := r.1 } }, r.2)

/-- `Chip8::press_key`: unguarded `key_inputs[key] = 1`; out-of-bounds
indexing panics (`none`). -/
def press_key (m : Chip8) (key : Nat) : Option Chip8 :=
  if key < m.io.key_inputs.length then
    some { m with io := { m.io with key_inputs := m.io.key_inputs.set key 1 } }
  else none

/-- `Chip8::unpress_key`: unguarded `key_inputs[key] = 0`. -/
def unpress_key (m : Chip8) (key : Nat) : Option Chip8 :=
  if key < m.io.key_inputs.length then
    some { m with io := { m.io with key_inputs := m.io.key_inputs.set key 0 } }
  else none

/-- `key_inputs.iter().position(|&x| x == 1)`: index of the first entry
equal to 1. -/
def position1 : List Nat → Option Nat
  | [] => none
  | x :: xs => if x = 1 then some 0 else (position1 xs).map (· + 1)

/-- `xor_bits` of the source: wrap the coordinates, read the alpha byte at
`4*x + 4*w*y + 3`, XOR it with the sprite bit, report 1 when a lit pixel
was erased, and write back 255 or 0. -/
def xor_bits (sprite_bit : Nat) (d : Nat → Nat) (x y w : Nat) : (Nat → Nat) × Nat :=
  let x2 := if w ≤ x then x % w else x
  let y2 := if 32 ≤ y then y % 32 else y
  let display_bit := if 0 < d (4 * x2 + 4 * w * y2 + 3) then 1 else 0
  let result := sprite_bit ^^^ display_bit
  let vf := if result < display_bit then 1 else 0
  (updf d (4 * x2 + 4 * w * y2 + 3) (if result = 1 then 255 else 0), vf)

/-- One bit-column step of the row loop in `draw_sprite`: apply `xor_bits`
to each listed sprite bit at consecutive x positions, OR-ing the collision
results (the source keeps a sticky `vf` flag across the eight unrolled
bit blocks; the list below is those blocks in order). -/
def drawBits : List Nat → (Nat → Nat) → Nat → Nat → ((Nat → Nat) × Nat)
  | [], d, _, _ => (d, 0)
  | b :: bs, d, x, y =>
    let p := xor_bits b d x y 64
    let q := drawBits bs p.1 (x + 1) y
    (q.1, if p.2 = 1 ∨ q.2 = 1 then 1 else 0)

/-- One sprite row of `draw_sprite`: the eight unrolled blocks test
`byte & 0x80, 0x40, ..., 0x01` left to right, i.e. bits 7 down to 0. -/
def draw_row (byte : Nat) (d : Nat → Nat) (x y : Nat) : (Nat → Nat) × Nat :=
  drawBits [byte / 128 % 2, byte / 64 % 2, byte / 32 % 2, byte / 16 % 2,
            byte / 8 % 2, byte / 4 % 2, byte / 2 % 2, byte % 2] d x y

/-- The row loop of `draw_sprite`: one row per sprite byte, x reset and y
incremented after each row, sticky collision flag. -/
def draw_rows : List Nat → (Nat → Nat) → Nat → Nat → ((Nat → Nat) × Nat)
  | [], d, _, _ => (d, 0)
  | b :: bs, d, x, y =>
    let p := draw_row b d x y
    let q := draw_rows bs p.1 x (y + 1)
    (q.1, if p.2 = 1 ∨ q.2 = 1 then 1 else 0)

/-- `draw_sprite` of the source: the slice
`memory[sprite_index..sprite_index + sprite_size]` panics (`none`) when it
overruns the 4096-byte memory; otherwise its bytes are drawn row by row. -/
def draw_sprite (memory d : Nat → Nat) (sprite_index sprite_size x y : Nat) :
    Option ((Nat → Nat) × Nat) :=
  if sprite_index + sprite_size ≤ 4096 then
    some (draw_rows ((List.range sprite_size).map fun i => memory (sprite_index + i) % 256) d x y)
  else none

/-- The write loop of the `Fx55` handler: `memory[i + index] = registers[i] as u8`
for `i in 0..n` (the source iterates `0..=vx`, so `n = vx + 1`). -/
def dump_regs (regs mem : Nat → Nat) (index : Nat) : Nat → (Nat → Nat)
  | 0 => mem
  | n + 1 => updf (dump_regs regs mem index n) (index + n) (regs n % 256)

/-- The read loop of the `Fx65` handler: `registers[i] = memory[index + i]`
for `i in 0..n`. -/
def load_regs (mem : Nat → Nat) (index : Nat) (regs : Nat → Nat) : Nat → (Nat → Nat)
  | 0 => regs
  | n + 1 => updf (load_regs mem index regs n) n (mem (index + n) % 256)

/-- The inner `match op_code & 0x000F` of the `0x8000` arm of the source's
dispatch (the arithmetic/logic group), as the same chain of disjoint
numeric tests. -/
def op_math (io : IOState) (cpu : CpuState) (vx vy op : Nat) : Option (IOState × CpuState) :=
  if op % 16 = 0 then
        some (io, { cpu with registers := updf cpu.registers vx (cpu.registers vy) })
      else if op % 16 = 1 then
        some (io, { cpu with registers := updf cpu.registers vx (cpu.registers vx ||| cpu.registers vy) })
      else if op % 16 = 2 then
        some (io, { cpu with registers := updf cpu.registers vx (cpu.registers vx &&& cpu.registers vy) })
      else if op % 16 = 3 then
        some (io, { cpu with registers := updf cpu.registers vx (cpu.registers vx ^^^ cpu.registers vy) })
      else if op % 16 = 4 then
        -- registers[vx] is written before the carry goes to registers[15]
        let result := cpu.registers vx + cpu.registers vy
        let r2 := if 255 < result then result % 256 else result
        let carry := if 255 < result then 1 else 0
        some (io, { cpu with registers := updf (updf cpu.registers vx r2) 15 carry })
      else if op % 16 = 5 then
        -- the borrow flag is written to registers[15] first, then the
        -- difference (isize arithmetic, `& 0xFF` = Euclidean mod 256) is
        -- recomputed from the updated register file
        let regs1 := updf cpu.registers 15 (if cpu.registers vy < cpu.registers vx then 1 else 0)
        let result := (((regs1 vx : Int) - (regs1 vy : Int)) % 256).toNat
        some (io, { cpu with registers := updf regs1 vx result })
      else if op % 16 = 6 then
        let regs1 := updf cpu.registers 15 (cpu.registers vx % 2)
        some (io, { cpu with registers := updf regs1 vx (regs1 vx / 2) })
      else if op % 16 = 7 then
        let regs1 := updf cpu.registers 15 (if cpu.registers vx < cpu.registers vy then 1 else 0)
        let result := (((regs1 vy : Int) - (regs1 vx : Int)) % 256).toNat
        some (io, { cpu with registers := updf regs1 vx result })
      else if op % 16 = 14 then
        let regs1 := updf cpu.registers 15 (if 0 < cpu.registers vx / 128 % 2 then 1 else 0)
        some (io, { cpu with registers := updf regs1 vx (regs1 vx * 2 % 256) })
      else some (io, cpu)

/-- The inner `match op_code & 0xFF` of the `0xE000` arm of the source's
dispatch (skip on key state); the latch lookup is bounds-checked, so a
register value of 16 or more panics (`none`). -/
def op_key (io : IOState) (cpu : CpuState) (vx op : Nat) : Option (IOState × CpuState) :=
  if op % 256 = 0x9E then
    match io.key_inputs[cpu.registers vx]? with
    | none => none
    | some v => some (io, if 0 < v then { cpu with pc := cpu.pc + 2 } else cpu)
  else if op % 256 = 0xA1 then
    match io.key_inputs[cpu.registers vx]? with
    | none => none
    | some v => some (io, if v = 0 then { cpu with pc := cpu.pc + 2 } else cpu)
  else some (io, cpu)

/-- The inner `match op_code & 0xFF` of the `0xF000` arm of the source's
dispatch (timers, wait-for-key, index arithmetic, BCD, register dump/load). -/
def op_misc (io : IOState) (cpu : CpuState) (vx op : Nat) : Option (IOState × CpuState) :=
  if op % 256 = 0x07 then
        some (io, { cpu with registers := updf cpu.registers vx cpu.delay_timer })
      else if op % 256 = 0x0A then
        match position1 io.key_inputs with
        | some key => some (io, { cpu with waiting := false, registers := updf cpu.registers vx key })
        | none => some (io, { cpu with waiting := true, pc := cpu.pc - 2 })
      else if op % 256 = 0x15 then
        some (io, { cpu with delay_timer := cpu.registers vx })
      else if op % 256 = 0x18 then
        some (io, { cpu with sound_timer := cpu.registers vx })
      else if op % 256 = 0x1E then
        some (io, { cpu with index := cpu.index + cpu.registers vx })
      else if op % 256 = 0x29 then
        some (io, { cpu with index := 5 * cpu.registers vx % 4096 })
      else if op % 256 = 0x33 then
        if cpu.index + 2 < 4096 then
          let m1 := updf io.memory cpu.index (cpu.registers vx / 100 % 10)
          let m2 := updf m1 (cpu.index + 1) (cpu.registers vx / 10 % 10)
          let m3 := updf m2 (cpu.index + 2) (cpu.registers vx % 10)
          some ({ io with memory := m3 }, cpu)
        else none
      else if op % 256 = 0x55 then
        if cpu.index + vx < 4096 then
          some ({ io with memory := dump_regs cpu.registers io.memory cpu.index (vx + 1) }, cpu)
        else none
      else if op % 256 = 0x65 then
        if cpu.index + vx + 1 ≤ 4096 then
          some (io, { cpu with registers := load_regs io.memory cpu.index cpu.registers (vx + 1) })
        else none
      else some (io, cpu)

/-- `process_opcode` of the source, with the nested `match` rendered as the
same chain of disjoint numeric tests (`op & 0xF000` is dispatched through
`op / 4096`, `op & 0x0F00 >> 8` is `op / 256 % 16`, and so on; the inner
matches of the 8xxx, Exxx, Fxxx arms are `op_math`, `op_key`, `op_misc`).
`none` models a panic: `RET` on an empty stack, key indexing beyond the 16
latches, and memory slices or writes beyond 4096 bytes.  `rnd` is the value
the `rand::random()` call would produce for the `Cxkk` instruction. -/
def process_opcode (rnd : Nat) (io : IOState) (cpu : CpuState) (op : Nat) :
    Option (IOState × CpuState) :=
  if op = 0x00E0 then
    -- CLS: zero every display byte from index 3 on (`iter_mut().skip(3)`)
    some ({ io with display_buffer := fun i => if 3 ≤ i then 0 else io.display_buffer i }, cpu)
  else if op = 0x00EE then
    match io.stack with
    | [] => none
    | addr :: rest => some ({ io with stack := rest }, { cpu with pc := addr })
  else
    let vx := op / 256 % 16
    let vy := op / 16 % 16
    let byte := op % 256
    if op / 4096 = 1 then
      some (io, { cpu with pc := op % 4096 })
    else if op / 4096 = 2 then
      some ({ io with stack := cpu.pc :: io.stack }, { cpu with pc := op % 4096 })
    else if op / 4096 = 3 then
      some (io, if cpu.registers vx = byte then { cpu with pc := cpu.pc + 2 } else cpu)
    else if op / 4096 = 4 then
      some (io, if cpu.registers vx ≠ byte then { cpu with pc := cpu.pc + 2 } else cpu)
    else if op / 4096 = 5 then
      some (io, if cpu.registers vx = cpu.registers vy then { cpu with pc := cpu.pc + 2 } else cpu)
    else if op / 4096 = 6 then
      some (io, { cpu with registers := updf cpu.registers vx byte })
    else if op / 4096 = 7 then
      some (io, { cpu with registers := updf cpu.registers vx ((cpu.registers vx + byte) % 256) })
    else if op / 4096 = 8 then
      op_math io cpu vx vy op
    else if op / 4096 = 9 then
      some (io, if cpu.registers vx ≠ cpu.registers vy then { cpu with pc := cpu.pc + 2 } else cpu)
    else if op / 4096 = 10 then
      some (io, { cpu with index := op % 4096 })
    else if op / 4096 = 11 then
      some (io, { cpu with pc := cpu.registers 0 + op % 4096 })
    else if op / 4096 = 12 then
      some (io, { cpu with registers := updf cpu.registers vx ((rnd % 256) &&& byte) })
    else if op / 4096 = 13 then
      match draw_sprite io.memory io.display_buffer cpu.index (op % 16)
          (cpu.registers vx) (cpu.registers vy) with
      | none => none
      | some (d2, vf) =>
        some ({ io with display_buffer := d2 }, { cpu with registers := updf cpu.registers 15 vf })
    else if op / 4096 = 14 then
      op_key io cpu vx op
    else if op / 4096 = 15 then
      op_misc io cpu vx op
    else some (io, cpu)

/-- One iteration body of the `while` loop in `Chip8::cycle`: fetch the two
bytes at `pc` (both `u8`), form the opcode `(high << 8) | low`, advance
`pc` by 2, execute. -/
def step (rnd : Nat) (m : Chip8) : Option Chip8 :=
  let op := (m.io.memory m.cpu.pc % 256) * 256 + m.io.memory (m.cpu.pc + 1) % 256
  match process_opcode rnd m.io { m.cpu with pc := m.cpu.pc + 2 } op with
  | none => none
  | some r => some { io := r.1, cpu := r.2 }

/-- The instruction loop of `Chip8::cycle`: run until the counter reaches
`clock_speed / 60`, returning early (`true`) when `pc > 4094`.  The result
also carries the number of instructions actually executed.  `rnds` feeds
the random byte for each loop iteration. -/
def cycleLoop (rnds : Nat → Nat) (counter : Nat) : Nat → Chip8 → Option (Chip8 × Nat × Bool)
  | 0, m => some (m, 0, false)
  | n + 1, m =>
    if 4094 < m.cpu.pc then some (m, 0, true)
    else
      match step (rnds counter) m with
      | none => none
      | some m2 =>
        match cycleLoop rnds (counter + 1) n m2 with
        | none => none
        | some (m3, k, e) => some (m3, k + 1, e)

/-- `Chip8::cycle`: run the instruction loop; the early `return` inside the
loop leaves the function before the timer decrements, so only a frame that
runs its full instruction batch decrements the two timers. -/
def cycle (rnds : Nat → Nat) (m : Chip8) : Option Chip8 :=
  match cycleLoop rnds 0 (m.cpu.clock_speed / 60) m with
  | none => none
  | some (m2, _, true) => some m2
  | some (m2, _, false) =>
    some { m2 with cpu := { m2.cpu with
      delay_timer := if 0 < m2.cpu.delay_timer then m2.cpu.delay_timer - 1 else m2.cpu.delay_timer,
      sound_timer := if 0 < m2.cpu.sound_timer then m2.cpu.sound_timer - 1 else m2.cpu.sound_timer } }

def c1io : IOState := (Chip8.new 60).io

def c1cpu : CpuState := { (Chip8.new 60).cpu with registers := updf (updf (fun _ => 0) 0 5) 1 5 }

/-- C1 counterexample: with V0 = V1 = 5, the subtract instruction 8015 sets
VF to 0, although the claim (flag 1 iff minuend >= subtrahend) demands 1. -/
theorem C1_counterexample :
    (process_opcode 0 c1io c1cpu 0x8015).map (fun r => r.2.registers 15) = some 0 ∧
    some (0 : Nat) ≠ some 1 := by
  exact ⟨by decide, by decide⟩

/-- C1 amended: 8xy5 stores (Vx - Vy) mod 256 into Vx and sets VF to 1 iff
Vx is STRICTLY greater than Vy (the source compares with >, not >=), and
8xy7 stores (Vy - Vx) mod 256 with VF = 1 iff Vy > Vx. -/
theorem C1_sub_flag_strict (rnd : Nat) (io : IOState) (cpu : CpuState) (vx vy : Nat)
    (hvx : vx < 16) (hvy : vy < 16) (hx15 : vx ≠ 15) (hy15 : vy ≠ 15)
    (ha : cpu.registers vx ≤ 255) (hb : cpu.registers vy ≤ 255) :
    process_opcode rnd io cpu (0x8000 + vx * 256 + vy * 16 + 5) = some (io, { cpu with registers := updf (updf cpu.registers 15 (if cpu.registers vy < cpu.registers vx then 1 else 0)) vx ((cpu.registers vx + 256 - cpu.registers vy) % 256) }) ∧
    process_opcode rnd io cpu (0x8000 + vx * 256 + vy * 16 + 7) = some (io, { cpu with registers := updf (updf cpu.registers 15 (if cpu.registers vx < cpu.registers vy then 1 else 0)) vx ((cpu.registers vy + 256 - cpu.registers vx) % 256) }) := by
  constructor
  · have d1 : (0x8000 + vx * 256 + vy * 16 + 5) / 4096 = 8 := by omega
    have m1 : (0x8000 + vx * 256 + vy * 16 + 5) % 16 = 5 := by omega
    have x1 : (0x8000 + vx * 256 + vy * 16 + 5) / 256 % 16 = vx := by omega
    have n1 : 0x8000 + vx * 256 + vy * 16 + 5 ≠ 0x00E0 := by omega
    have n2 : 0x8000 + vx * 256 + vy * 16 + 5 ≠ 0x00EE := by omega
    have y1 : (0x8000 + vx * 256 + vy * 16 + 5) / 16 % 16 = vy := by omega
    unfold process_opcode op_math
    simp only [d1, m1, x1, y1, n1, n2, if_false, if_true]
    norm_num
    rw [updf_other _ _ _ _ hx15, updf_other _ _ _ _ hy15]
    have final : (((cpu.registers vx : Int) - (cpu.registers vy : Int)) % 256).toNat
        = (cpu.registers vx + 256 - cpu.registers vy) % 256 := by omega
    rw [final]
  · have d1 : (0x8000 + vx * 256 + vy * 16 + 7) / 4096 = 8 := by omega
    have m1 : (0x8000 + vx * 256 + vy * 16 + 7) % 16 = 7 := by omega
    have x1 : (0x8000 + vx * 256 + vy * 16 + 7) / 256 % 16 = vx := by omega
    have n1 : 0x8000 + vx * 256 + vy * 16 + 7 ≠ 0x00E0 := by omega
    have n2 : 0x8000 + vx * 256 + vy * 16 + 7 ≠ 0x00EE := by omega
    have y1 : (0x8000 + vx * 256 + vy * 16 + 7) / 16 % 16 = vy := by omega
    unfold process_opcode op_math
    simp only [d1, m1, x1, y1, n1, n2, if_false, if_true]
    norm_num
    rw [updf_other _ _ _ _ hx15, updf_other _ _ _ _ hy15]
    have final : (((cpu.registers vy : Int) - (cpu.registers vx : Int)) % 256).toNat
        = (cpu.registers vy + 256 - cpu.registers vx) % 256 := by omega
    rw [final]

def c1cpuW : CpuState := { (Chip8.new 60).cpu with registers := updf (updf (fun _ => 0) 0 5) 1 3 }

/-- Witness for C1_sub_flag_strict at V0 = 5, V1 = 3: 8015 gives V0 = 2, VF = 1. -/
theorem C1_sub_flag_strict_witness :
    process_opcode 0 c1io c1cpuW 0x8015 = some (c1io, { c1cpuW with registers := updf (updf c1cpuW.registers 15 (if c1cpuW.registers 1 < c1cpuW.registers 0 then 1 else 0)) 0 ((c1cpuW.registers 0 + 256 - c1cpuW.registers 1) % 256) }) :=
  (C1_sub_flag_strict 0 c1io c1cpuW 0 1 (by decide) (by decide) (by decide) (by decide) (by decide) (by decide)).1

def c3cpu : CpuState := { (Chip8.new 60).cpu with index := 4095, registers := updf (fun _ => 0) 0 1 }

/-- C3 counterexample: with index = 4095 and V0 = 1, instruction F01E leaves
the index register at 4096, not (4095 + 1) mod 4096 = 0 as the claim demands,
so the index register can hold a value of 4096 or more. -/
theorem C3_counterexample :
    (process_opcode 0 c1io c3cpu 0xF01E).map (fun r => r.2.index) = some 4096 ∧
    some (4096 : Nat) ≠ some ((4095 + 1) % 4096) := ⟨by decide, by decide⟩

/-- C3 amended: Fx1E performs plain addition into the index register with no
modulo-4096 reduction, so the index register can end up at 4096 or beyond. -/
theorem C3_add_index_no_mask (rnd : Nat) (io : IOState) (cpu : CpuState) (vx : Nat)
    (hvx : vx < 16) :
    process_opcode rnd io cpu (0xF01E + vx * 256) = some (io, { cpu with index := cpu.index + cpu.registers vx }) := by
  have d1 : (0xF01E + vx * 256) / 4096 = 15 := by omega
  have m1 : (0xF01E + vx * 256) % 256 = 0x1E := by omega
  have x1 : (0xF01E + vx * 256) / 256 % 16 = vx := by omega
  have n1 : 0xF01E + vx * 256 ≠ 0x00E0 := by omega
  have n2 : 0xF01E + vx * 256 ≠ 0x00EE := by omega
  unfold process_opcode op_misc
  simp only [d1, m1, x1, n1, n2]
  norm_num

/-- Witness for C3_add_index_no_mask at index = 4095, V0 = 1. -/
theorem C3_add_index_no_mask_witness :
    process_opcode 0 c1io c3cpu (0xF01E + 0 * 256) = some (c1io, { c3cpu with index := c3cpu.index + c3cpu.registers 0 }) :=
  C3_add_index_no_mask 0 c1io c3cpu 0 (by decide)

theorem getD_set_self : ∀ (l : List Nat) (k v : Nat), k < l.length → (l.set k v).getD k 0 = v
  | [], k, _, h => absurd h (by simp)
  | _ :: _, 0, _, _ => rfl
  | _ :: l, k + 1, v, h => by
    simpa using getD_set_self l k v (by simpa using h)

theorem getD_set_other : ∀ (l : List Nat) (k v j : Nat), j ≠ k → (l.set k v).getD j 0 = l.getD j 0
  | [], _, _, _, _ => rfl
  | _ :: _, 0, _, 0, h => absurd rfl h
  | _ :: _, 0, _, _ + 1, _ => rfl
  | _ :: _, _ + 1, _, 0, _ => rfl
  | _ :: l, k + 1, v, j + 1, h => by
    simpa using getD_set_other l k v j (fun hc => h (by omega))

/-- C10: press_key and unpress_key have no bounds guard of their own; for k
in 0..15 they set or clear exactly latch k and change nothing else, and for
k >= 16 the checked indexing panics. -/
theorem C10_key_bounds (m : Chip8) (k : Nat) (hlen : m.io.key_inputs.length = 16) :
    (k < 16 → press_key m k = some { m with io := { m.io with key_inputs := m.io.key_inputs.set k 1 } } ∧ unpress_key m k = some { m with io := { m.io with key_inputs := m.io.key_inputs.set k 0 } } ∧ (m.io.key_inputs.set k 1).getD k 0 = 1 ∧ (m.io.key_inputs.set k 0).getD k 0 = 0 ∧ (∀ j, j ≠ k → (m.io.key_inputs.set k 1).getD j 0 = m.io.key_inputs.getD j 0 ∧ (m.io.key_inputs.set k 0).getD j 0 = m.io.key_inputs.getD j 0)) ∧
    (16 ≤ k → press_key m k = none ∧ unpress_key m k = none) := by
  constructor
  · intro hk
    refine ⟨?_, ?_, ?_, ?_, ?_⟩
    · simp [press_key, hlen, hk]
    · simp [unpress_key, hlen, hk]
    · exact getD_set_self _ _ _ (by omega)
    · exact getD_set_self _ _ _ (by omega)
    · intro j hj
      exact ⟨getD_set_other _ _ _ _ hj, getD_set_other _ _ _ _ hj⟩
  · intro hk
    constructor
    · simp [press_key, hlen]
      omega
    · simp [unpress_key, hlen]
      omega

/-- Witness for C10_key_bounds at a fresh machine and k = 3. -/
theorem C10_key_bounds_witness :
    press_key (Chip8.new 60) 3 = some { Chip8.new 60 with io := { (Chip8.new 60).io with key_inputs := (Chip8.new 60).io.key_inputs.set 3 1 } } :=
  ((C10_key_bounds (Chip8.new 60) 3 (by decide)).1 (by decide)).1

/-- An opcode that reaches one of the empty `_ => {}` arms of the dispatch in
`process_opcode`: high nibble 0 but not CLS/RET, an 8xyN with an unused low
nibble, or an Ex/Fx low byte that names no instruction. -/
def unknownOp (op : Nat) : Prop :=
  op ≠ 0x00E0 ∧ op ≠ 0x00EE ∧
  (op / 4096 = 0 ∨
   (op / 4096 = 8 ∧ ¬ (op % 16 = 0 ∨ op % 16 = 1 ∨ op % 16 = 2 ∨ op % 16 = 3 ∨ op % 16 = 4 ∨ op % 16 = 5 ∨ op % 16 = 6 ∨ op % 16 = 7 ∨ op % 16 = 14)) ∨
   (op / 4096 = 14 ∧ op % 256 ≠ 0x9E ∧ op % 256 ≠ 0xA1) ∨
   (op / 4096 = 15 ∧ ¬ (op % 256 = 0x07 ∨ op % 256 = 0x0A ∨ op % 256 = 0x15 ∨ op % 256 = 0x18 ∨ op % 256 = 0x1E ∨ op % 256 = 0x29 ∨ op % 256 = 0x33 ∨ op % 256 = 0x55 ∨ op % 256 = 0x65)))

instance (op : Nat) : Decidable (unknownOp op) := by
  unfold unknownOp
  infer_instance

theorem process_opcode_unknown (rnd : Nat) (io : IOState) (cpu : CpuState) (op : Nat)
    (h : unknownOp op) : process_opcode rnd io cpu op = some (io, cpu) := by
  obtain ⟨hE0, hEE, hcase⟩ := h
  unfold process_opcode
  rcases hcase with h0 | ⟨h8, hn⟩ | ⟨h14, h9E, hA1⟩ | ⟨h15, hn⟩
  · simp [hE0, hEE, h0]
  · push_neg at hn
    obtain ⟨n0, n1, n2, n3, n4, n5, n6, n7, n14⟩ := hn
    simp [hE0, hEE, h8, op_math, n0, n1, n2, n3, n4, n5, n6, n7, n14]
  · simp [hE0, hEE, h14, op_key, h9E, hA1]
  · push_neg at hn
    obtain ⟨n1, n2, n3, n4, n5, n6, n7, n8, n9⟩ := hn
    simp [hE0, hEE, h15, op_misc, n1, n2, n3, n4, n5, n6, n7, n8, n9]

/-- C8: an opcode matching none of the dispatch patterns is a silent no-op:
one fetch-decode-execute step advances pc by exactly 2 and leaves all other
machine state (registers, index, memory, display, stack, timers, latches,
waiting flag) untouched. -/
theorem C8_unknown_opcode_noop (rnd : Nat) (m : Chip8)
    (h : unknownOp ((m.io.memory m.cpu.pc % 256) * 256 + m.io.memory (m.cpu.pc + 1) % 256)) :
    step rnd m = some { m with cpu := { m.cpu with pc := m.cpu.pc + 2 } } := by
  unfold step
  simp only [process_opcode_unknown _ _ _ _ h]

/-- Witness for C8_unknown_opcode_noop: the fresh machine fetches opcode
0000, which is unknown, and only pc changes (512 to 514). -/
theorem C8_unknown_opcode_noop_witness :
    step 0 (Chip8.new 60) = some { Chip8.new 60 with cpu := { (Chip8.new 60).cpu with pc := (Chip8.new 60).cpu.pc + 2 } } :=
  C8_unknown_opcode_noop 0 (Chip8.new 60) (by decide)

theorem position1_eq_none (l : List Nat) : position1 l = none ↔ ∀ x ∈ l, x ≠ 1 := by
  induction l with
  | nil => simp [position1]
  | cons a l ih =>
    by_cases ha : a = 1
    · simp [position1, ha]
    · simp [position1, ha, ih]

theorem position1_eq_some (l : List Nat) (k : Nat) (h : position1 l = some k) :
    k < l.length ∧ l.getD k 0 = 1 ∧ ∀ j, j < k → l.getD j 0 ≠ 1 := by
  induction l generalizing k with
  | nil => simp [position1] at h
  | cons a l ih =>
    by_cases ha : a = 1
    · simp [position1, ha] at h
      subst h
      simp [ha]
    · simp [position1, ha] at h
      obtain ⟨k2, hk2, rfl⟩ := h
      obtain ⟨h1, h2, h3⟩ := ih k2 hk2
      refine ⟨by simpa using h1, by simpa using h2, ?_⟩
      intro j hj
      cases j with
      | zero => simpa using ha
      | succ j2 => simpa using h3 j2 (by omega)

/-- C7: the wait-for-key instruction Fx0A.  With no key latch set, one
fetch-decode-execute step sets the waiting flag and rewinds pc by 2, so the
net pc advance is zero; with at least one latch set, it clears the waiting
flag, stores the lowest-indexed pressed key into Vx, and pc advances by 2. -/
theorem C7_wait_for_key (rnd : Nat) (m : Chip8) (vx : Nat) (hvx : vx < 16)
    (hhi : m.io.memory m.cpu.pc % 256 = 0xF0 + vx)
    (hlo : m.io.memory (m.cpu.pc + 1) % 256 = 0x0A) :
    ((∀ x ∈ m.io.key_inputs, x ≠ 1) → step rnd m = some { m with cpu := { m.cpu with waiting := true } }) ∧
    (∀ k, position1 m.io.key_inputs = some k → step rnd m = some { m with cpu := { m.cpu with waiting := false, pc := m.cpu.pc + 2, registers := updf m.cpu.registers vx k } } ∧ k < m.io.key_inputs.length ∧ m.io.key_inputs.getD k 0 = 1 ∧ ∀ j, j < k → m.io.key_inputs.getD j 0 ≠ 1) := by
  have d1 : ((0xF0 + vx) * 256 + 0x0A) / 4096 = 15 := by omega
  have m1 : ((0xF0 + vx) * 256 + 0x0A) % 256 = 0x0A := by omega
  have x1 : ((0xF0 + vx) * 256 + 0x0A) / 256 % 16 = vx := by omega
  have n1 : (0xF0 + vx) * 256 + 0x0A ≠ 0x00E0 := by omega
  have n2 : (0xF0 + vx) * 256 + 0x0A ≠ 0x00EE := by omega
  constructor
  · intro hnone
    have hp : position1 m.io.key_inputs = none := (position1_eq_none _).mpr hnone
    unfold step process_opcode op_misc
    simp only [hhi, hlo, d1, m1, x1, n1, n2, hp]
    norm_num
  · intro k hk
    obtain ⟨hklen, hk1, hkmin⟩ := position1_eq_some _ _ hk
    refine ⟨?_, hklen, hk1, hkmin⟩
    unfold step process_opcode op_misc
    simp only [hhi, hlo, d1, m1, x1, n1, n2, hk]
    norm_num

def c7m : Chip8 := { Chip8.new 60 with io := { (Chip8.new 60).io with memory := updf (updf (Chip8.new 60).io.memory 512 0xF0) 513 0x0A } }

/-- Witness for C7_wait_for_key: machine with F00A at pc = 512 and no key
pressed keeps pc at 512 and raises the waiting flag. -/
theorem C7_wait_for_key_witness :
    step 0 c7m = some { c7m with cpu := { c7m.cpu with waiting := true } } :=
  (C7_wait_for_key 0 c7m 0 (by decide) (by decide) (by decide)).1 (by decide)

theorem cycleLoop_count (rnds : Nat → Nat) (n : Nat) :
    ∀ (c : Nat) (m m2 : Chip8) (k : Nat), cycleLoop rnds c n m = some (m2, k, false) → k = n := by
  induction n with
  | zero =>
    intro c m m2 k h
    simp [cycleLoop] at h
    omega
  | succ n ih =>
    intro c m m2 k h
    unfold cycleLoop at h
    by_cases hpc : 4094 < m.cpu.pc
    · simp [hpc] at h
    · simp only [hpc, if_false, ite_false] at h
      cases hs : step (rnds c) m with
      | none => rw [hs] at h; simp at h
      | some m3 =>
        rw [hs] at h
        dsimp only at h
        cases hr : cycleLoop rnds (c + 1) n m3 with
        | none => rw [hr] at h; simp at h
        | some t =>
          obtain ⟨m4, k2, e⟩ := t
          rw [hr] at h
          simp at h
          obtain ⟨hm, hk, he⟩ := h
          subst he
          have := ih (c + 1) m3 m4 k2 hr
          omega

def c2m : Chip8 := { Chip8.new 60 with cpu := { (Chip8.new 60).cpu with pc := 4095, delay_timer := 5 } }

/-- C2 counterexample: a frame that terminates early (pc = 4095 > 4094) hits
the early return before the timer code, so a nonzero delay timer 5 stays 5
instead of being decremented to 4 as the claim demands for every frame. -/
theorem C2_counterexample :
    (cycle (fun _ => 0) c2m).map (fun mm => mm.cpu.delay_timer) = some 5 ∧
    some (5 : Nat) ≠ some 4 := ⟨by decide, by decide⟩

/-- C2 amended: a frame executes exactly clock_speed / 60 instructions unless
pc exceeds 4094, which ends the frame early; after a frame that runs its full
batch each timer is decremented by 1 when nonzero (never below 0, which the
truncated subtraction expresses), but an early-terminated frame returns
before the timer code and decrements neither timer. -/
theorem C2_frame_behavior (rnds : Nat → Nat) (m m2 : Chip8) (k : Nat) (early : Bool)
    (h : cycleLoop rnds 0 (m.cpu.clock_speed / 60) m = some (m2, k, early)) :
    (early = false → k = m.cpu.clock_speed / 60 ∧ cycle rnds m = some { m2 with cpu := { m2.cpu with delay_timer := m2.cpu.delay_timer - 1, sound_timer := m2.cpu.sound_timer - 1 } }) ∧
    (early = true → cycle rnds m = some m2) := by
  constructor
  · intro he
    subst he
    refine ⟨cycleLoop_count rnds _ 0 m m2 k h, ?_⟩
    unfold cycle
    rw [h]
    have hd : (if 0 < m2.cpu.delay_timer then m2.cpu.delay_timer - 1 else m2.cpu.delay_timer) = m2.cpu.delay_timer - 1 := by split <;> omega
    have hs : (if 0 < m2.cpu.sound_timer then m2.cpu.sound_timer - 1 else m2.cpu.sound_timer) = m2.cpu.sound_timer - 1 := by split <;> omega
    simp [hd, hs]
  · intro he
    subst he
    unfold cycle
    rw [h]

def c2mres : Chip8 := { Chip8.new 60 with cpu := { (Chip8.new 60).cpu with pc := 514 } }

/-- Witness for C2_frame_behavior: the fresh machine at clock speed 60 runs
exactly one instruction (the no-op opcode 0000) and its zero timers stay 0. -/
theorem C2_frame_behavior_witness :
    1 = (Chip8.new 60).cpu.clock_speed / 60 ∧ cycle (fun _ => 0) (Chip8.new 60) = some { c2mres with cpu := { c2mres.cpu with delay_timer := c2mres.cpu.delay_timer - 1, sound_timer := c2mres.cpu.sound_timer - 1 } } :=
  (C2_frame_behavior (fun _ => 0) (Chip8.new 60) c2mres 1 false (by rfl)).1 rfl

theorem load_loop_mem : ∀ (bytes : List Nat) (mem : Nat → Nat) (i j : Nat),
    (load_loop mem bytes i).1 j = if i + 512 ≤ j ∧ j < 4096 ∧ j - (i + 512) < bytes.length then bytes.getD (j - (i + 512)) 0 % 256 else mem j := by
  intro bytes
  induction bytes with
  | nil =>
    intro mem i j
    simp only [load_loop]
    rw [if_neg (by simp)]
  | cons b rest ih =>
    intro mem i j
    simp only [load_loop]
    by_cases hb : i + 512 < 4096
    · simp only [hb, ite_true]
      rw [ih]
      by_cases hj : j = i + 512
      · subst hj
        rw [if_neg (by omega), if_pos ⟨by omega, by omega, by simp⟩]
        simp [updf_same]
      · by_cases hcond : i + 1 + 512 ≤ j ∧ j < 4096 ∧ j - (i + 1 + 512) < rest.length
        · rw [if_pos hcond, if_pos (by simp only [List.length_cons]; omega)]
          have hidx : j - (i + 512) = (j - (i + 1 + 512)) + 1 := by omega
          rw [hidx, List.getD_cons_succ]
        · rw [if_neg hcond, updf_other _ _ _ _ hj, if_neg (by simp only [List.length_cons]; omega)]
    · simp only [hb, ite_false]
      rw [if_neg (by omega)]

theorem load_loop_flag : ∀ (bytes : List Nat) (mem : Nat → Nat) (i : Nat),
    ((load_loop mem bytes i).2 = false ↔ bytes = [] ∨ i + 512 + bytes.length ≤ 4096) := by
  intro bytes
  induction bytes with
  | nil =>
    intro mem i
    simp [load_loop]
  | cons b rest ih =>
    intro mem i
    have hne : b :: rest ≠ [] := by simp
    simp only [load_loop]
    by_cases hb : i + 512 < 4096
    · rw [if_pos hb, ih]
      simp only [List.length_cons]
      constructor
      · intro h2
        refine Or.inr ?_
        rcases h2 with rfl | h2
        · simp only [List.length_nil]
          omega
        · omega
      · intro h2
        rcases h2 with h2 | h2
        · exact absurd h2 hne
        · exact Or.inr (by omega)
    · rw [if_neg hb]
      constructor
      · intro h2
        exact absurd h2 (by simp)
      · intro h2
        rcases h2 with h2 | h2
        · exact absurd h2 hne
        · simp only [List.length_cons] at h2
          omega

/-- C4 amended: loading a byte sequence of length L at the default start
address 512 succeeds iff 512 + L <= 4096; when 512 + L > 4096 the copy loop
panics at the first out-of-range index, but only after having written the
first 3584 bytes, so memory IS partially modified before the failure.
Addresses below 512 are never touched. -/
theorem C4_load_partial_write (m : Chip8) (bytes : List Nat) :
    ((load_rom m bytes).2 = false ↔ 512 + bytes.length ≤ 4096) ∧
    (∀ j, 512 ≤ j → j < 4096 → j - 512 < bytes.length → (load_rom m bytes).1.io.memory j = bytes.getD (j - 512) 0 % 256) ∧
    (∀ j, j < 512 → (load_rom m bytes).1.io.memory j = m.io.memory j) := by
  refine ⟨?_, ?_, ?_⟩
  · unfold load_rom
    dsimp only
    rw [load_loop_flag]
    constructor
    · rintro (rfl | h)
      · simp
      · omega
    · intro h
      exact Or.inr (by omega)
  · intro j h1 h2 h3
    unfold load_rom
    dsimp only
    rw [load_loop_mem, if_pos ⟨by omega, h2, by omega⟩]
  · intro j h1
    unfold load_rom
    dsimp only
    rw [load_loop_mem, if_neg (by omega)]

def c4bytes : List Nat := List.replicate 3585 7

/-- C4 counterexample: loading a 3585-byte program (512 + 3585 > 4096) panics
on the out-of-bounds write, but only after the first 3584 bytes were copied:
the byte at address 512, initially 0, is already 7 when the failure occurs,
so memory was partially modified before the failure was reported. -/
theorem C4_counterexample :
    (load_rom (Chip8.new 60) c4bytes).2 = true ∧
    (load_rom (Chip8.new 60) c4bytes).1.io.memory 512 = 7 ∧
    (Chip8.new 60).io.memory 512 = 0 := by
  have hlen : c4bytes.length = 3585 := by
    rw [c4bytes, List.length_replicate]
  have hcons : c4bytes = 7 :: List.replicate 3584 7 := List.replicate_succ ..
  refine ⟨?_, ?_, by decide⟩
  · unfold load_rom
    dsimp only
    by_cases hf : (load_loop (Chip8.new 60).io.memory c4bytes 0).2 = false
    · exfalso
      rcases (load_loop_flag c4bytes (Chip8.new 60).io.memory 0).mp hf with h2 | h2
      · rw [h2] at hlen
        simp at hlen
      · omega
    · exact Bool.ne_false_iff.mp hf
  · unfold load_rom
    dsimp only
    rw [load_loop_mem, if_pos ⟨by omega, by omega, by omega⟩]
    rw [show (512 : Nat) - (0 + 512) = 0 from rfl, hcons, List.getD_cons_zero]

/-- Witness for C4_load_partial_write: a one-byte program loads successfully
and its byte lands at address 512. -/
theorem C4_load_partial_write_witness :
    ((load_rom (Chip8.new 60) [7]).2 = false ↔ 512 + [(7 : Nat)].length ≤ 4096) ∧
    (load_rom (Chip8.new 60) [7]).1.io.memory 512 = [(7 : Nat)].getD (512 - 512) 0 % 256 :=
  ⟨(C4_load_partial_write (Chip8.new 60) [7]).1,
   (C4_load_partial_write (Chip8.new 60) [7]).2.1 512 (by decide) (by decide) (by decide)⟩

def c5prog : List Nat := [0x6A, 0x02, 0x00, 0xE0, 0x12, 0x00]

def c5m60 : Chip8 := (load_rom (Chip8.new 60) c5prog).1

def c5m180 : Chip8 := (load_rom (Chip8.new 180) c5prog).1

/-- C5 counterexample: at clock speed 60 one frame executes 60 / 60 = 1
instruction, so after one cycle() only 6A02 has run and pc is 514, not 512
as the claimed scenario requires (it needs all three instructions). -/
theorem C5_counterexample :
    (cycle (fun _ => 0) c5m60).map (fun mm => mm.cpu.pc) = some 514 ∧
    some (514 : Nat) ≠ some 512 := ⟨by decide, by decide⟩

def c5final : Chip8 :=
  { io := { key_inputs := List.replicate 16 0,
            display_buffer := fun i => if 3 ≤ i then 0 else c5m180.io.display_buffer i,
            memory := c5m180.io.memory,
            stack := [] },
    cpu := { registers := updf (fun _ => 0) 10 2, pc := 512, index := 0, sound_timer := 0,
             delay_timer := 0, waiting := false, clock_speed := 180 } }

/-- C5 amended: the scenario holds at clock speed 180 (three instructions per
frame): after one cycle() on the loaded program 6A02 00E0 1200, register VA
holds 2, every pixel of the display buffer is off, and pc is back at 512. -/
theorem C5_scenario_clock180 :
    (cycle (fun _ => 0) c5m180).map (fun mm => mm.cpu.pc) = some 512 ∧
    (cycle (fun _ => 0) c5m180).map (fun mm => mm.cpu.registers 10) = some 2 ∧
    (∀ p, p < 2048 → (cycle (fun _ => 0) c5m180).elim 0 (fun mm => mm.io.display_buffer (4 * p + 3)) = 0) := by
  have hc : cycle (fun _ => 0) c5m180 = some c5final := by rfl
  refine ⟨?_, ?_, ?_⟩
  · rw [hc]
    rfl
  · rw [hc]
    rfl
  · intro p hp
    rw [hc]
    show (if 3 ≤ 4 * p + 3 then 0 else c5m180.io.display_buffer (4 * p + 3)) = 0
    rw [if_pos (by omega)]

/-- Witness for C5_scenario_clock180 at pixel 0. -/
theorem C5_scenario_clock180_witness :
    (cycle (fun _ => 0) c5m180).elim 0 (fun mm => mm.io.display_buffer (4 * 0 + 3)) = 0 :=
  C5_scenario_clock180.2.2 0 (by decide)

/-- Binary-pixel invariant of the claim: every pixel on/off (alpha) byte of
the display buffer, the offsets congruent to 3 mod 4, is 0 or 255. -/
def pixelInv (d : Nat → Nat) : Prop := ∀ i, i < 8192 → i % 4 = 3 → d i = 0 ∨ d i = 255

theorem pixelInv_updf (d : Nat → Nat) (k v : Nat) (hv : v = 0 ∨ v = 255) (h : pixelInv d) :
    pixelInv (updf d k v) := by
  intro i h1 h2
  by_cases hik : i = k
  · simpa [updf, hik] using hv
  · simpa [updf, hik] using h i h1 h2

theorem ite_zero_or_255 (c : Prop) [Decidable c] :
    (if c then (255 : Nat) else 0) = 0 ∨ (if c then (255 : Nat) else 0) = 255 := by
  split
  · exact Or.inr rfl
  · exact Or.inl rfl

theorem xor_bits_pixelInv (b : Nat) (d : Nat → Nat) (x y w : Nat) (h : pixelInv d) :
    pixelInv (xor_bits b d x y w).1 := by
  unfold xor_bits
  dsimp only
  exact pixelInv_updf _ _ _ (ite_zero_or_255 _) h

theorem drawBits_pixelInv : ∀ (bs : List Nat) (d : Nat → Nat) (x y : Nat),
    pixelInv d → pixelInv (drawBits bs d x y).1 := by
  intro bs
  induction bs with
  | nil => intro d x y h; exact h
  | cons b bs ih =>
    intro d x y h
    exact ih _ (x + 1) y (xor_bits_pixelInv b d x y 64 h)

theorem draw_rows_pixelInv : ∀ (bs : List Nat) (d : Nat → Nat) (x y : Nat),
    pixelInv d → pixelInv (draw_rows bs d x y).1 := by
  intro bs
  induction bs with
  | nil => intro d x y h; exact h
  | cons b bs ih =>
    intro d x y h
    exact ih _ x (y + 1) (drawBits_pixelInv _ d x y h)

theorem draw_sprite_pixelInv (mem d : Nat → Nat) (a b c e : Nat) (d2 : Nat → Nat) (vf : Nat)
    (h : draw_sprite mem d a b c e = some (d2, vf)) (hinv : pixelInv d) : pixelInv d2 := by
  unfold draw_sprite at h
  split at h
  · have h2 := congrArg Prod.fst (Option.some.inj h)
    dsimp at h2
    rw [← h2]
    exact draw_rows_pixelInv _ d c e hinv
  · cases h

theorem cls_pixelInv (d : Nat → Nat) (h : pixelInv d) :
    pixelInv (fun i => if 3 ≤ i then 0 else d i) := by
  intro i h1 h2
  dsimp only
  split
  · exact Or.inl rfl
  · exact h i h1 h2

theorem op_math_io (io : IOState) (cpu : CpuState) (vx vy op : Nat) (io2 : IOState)
    (cpu2 : CpuState) (h : op_math io cpu vx vy op = some (io2, cpu2)) : io2 = io := by
  unfold op_math at h
  have hlt : op % 16 < 16 := Nat.mod_lt _ (by omega)
  set r := op % 16 with hr
  interval_cases r <;> norm_num at h <;> exact h.1.symm

theorem op_key_io (io : IOState) (cpu : CpuState) (vx op : Nat) (io2 : IOState)
    (cpu2 : CpuState) (h : op_key io cpu vx op = some (io2, cpu2)) : io2 = io := by
  unfold op_key at h
  by_cases h1 : op % 256 = 0x9E
  · rw [if_pos h1] at h
    cases hk : io.key_inputs[cpu.registers vx]? with
    | none => rw [hk] at h; cases h
    | some v => rw [hk] at h; dsimp only at h; cases h; rfl
  · rw [if_neg h1] at h
    by_cases h2 : op % 256 = 0xA1
    · rw [if_pos h2] at h
      cases hk : io.key_inputs[cpu.registers vx]? with
      | none => rw [hk] at h; cases h
      | some v => rw [hk] at h; dsimp only at h; cases h; rfl
    · rw [if_neg h2] at h
      cases h
      rfl

theorem op_misc_display (io : IOState) (cpu : CpuState) (vx op : Nat) (io2 : IOState)
    (cpu2 : CpuState) (h : op_misc io cpu vx op = some (io2, cpu2)) :
    io2.display_buffer = io.display_buffer := by
  unfold op_misc at h
  by_cases h1 : op % 256 = 0x07
  · rw [if_pos h1] at h
    cases h
    rfl
  · rw [if_neg h1] at h
    by_cases h2 : op % 256 = 0x0A
    · rw [if_pos h2] at h
      cases hk : position1 io.key_inputs with
      | none => rw [hk] at h; dsimp only at h; cases h; rfl
      | some key => rw [hk] at h; dsimp only at h; cases h; rfl
    · rw [if_neg h2] at h
      by_cases h3 : op % 256 = 0x15
      · rw [if_pos h3] at h
        cases h
        rfl
      · rw [if_neg h3] at h
        by_cases h4 : op % 256 = 0x18
        · rw [if_pos h4] at h
          cases h
          rfl
        · rw [if_neg h4] at h
          by_cases h5 : op % 256 = 0x1E
          · rw [if_pos h5] at h
            cases h
            rfl
          · rw [if_neg h5] at h
            by_cases h6 : op % 256 = 0x29
            · rw [if_pos h6] at h
              cases h
              rfl
            · rw [if_neg h6] at h
              by_cases h7 : op % 256 = 0x33
              · rw [if_pos h7] at h
                by_cases hb : cpu.index + 2 < 4096
                · rw [if_pos hb] at h
                  dsimp only at h
                  cases h
                  rfl
                · rw [if_neg hb] at h
                  cases h
              · rw [if_neg h7] at h
                by_cases h8 : op % 256 = 0x55
                · rw [if_pos h8] at h
                  by_cases hb : cpu.index + vx < 4096
                  · rw [if_pos hb] at h
                    cases h
                    rfl
                  · rw [if_neg hb] at h
                    cases h
                · rw [if_neg h8] at h
                  by_cases h9 : op % 256 = 0x65
                  · rw [if_pos h9] at h
                    by_cases hb : cpu.index + vx + 1 ≤ 4096
                    · rw [if_pos hb] at h
                      cases h
                      rfl
                    · rw [if_neg hb] at h
                      cases h
                  · rw [if_neg h9] at h
                    cases h
                    rfl

/-- C9: in the freshly initialized machine and after any successfully
executed instruction (clear-screen and sprite draws included), every pixel
on/off byte of the display buffer (offsets congruent to 3 mod 4) is either
0 or 255, never an intermediate value. -/
theorem C9_binary_pixel_invariant :
    (∀ cs, pixelInv (Chip8.new cs).io.display_buffer) ∧
    (∀ rnd io cpu op io2 cpu2, process_opcode rnd io cpu op = some (io2, cpu2) → pixelInv io.display_buffer → pixelInv io2.display_buffer) := by
  constructor
  · intro cs i h1 h2
    show (if (i + 1) % 4 = 0 then (0 : Nat) else 255) = 0 ∨ (if (i + 1) % 4 = 0 then (0 : Nat) else 255) = 255
    rw [if_pos (by omega)]
    exact Or.inl rfl
  · intro rnd io cpu op io2 cpu2 h hinv
    unfold process_opcode at h
    by_cases c0 : op = 0x00E0
    · rw [if_pos c0] at h
      cases h
      exact cls_pixelInv io.display_buffer hinv
    · rw [if_neg c0] at h
      by_cases c1 : op = 0x00EE
      · rw [if_pos c1] at h
        cases hs : io.stack with
        | nil => rw [hs] at h; cases h
        | cons a rest => rw [hs] at h; dsimp only at h; cases h; exact hinv
      · rw [if_neg c1] at h
        dsimp only at h
        by_cases d1 : op / 4096 = 1
        · rw [if_pos d1] at h; cases h; exact hinv
        · rw [if_neg d1] at h
          by_cases d2 : op / 4096 = 2
          · rw [if_pos d2] at h; cases h; exact hinv
          · rw [if_neg d2] at h
            by_cases d3 : op / 4096 = 3
            · rw [if_pos d3] at h; cases h; exact hinv
            · rw [if_neg d3] at h
              by_cases d4 : op / 4096 = 4
              · rw [if_pos d4] at h; cases h; exact hinv
              · rw [if_neg d4] at h
                by_cases d5 : op / 4096 = 5
                · rw [if_pos d5] at h; cases h; exact hinv
                · rw [if_neg d5] at h
                  by_cases d6 : op / 4096 = 6
                  · rw [if_pos d6] at h; cases h; exact hinv
                  · rw [if_neg d6] at h
                    by_cases d7 : op / 4096 = 7
                    · rw [if_pos d7] at h; cases h; exact hinv
                    · rw [if_neg d7] at h
                      by_cases d8 : op / 4096 = 8
                      · rw [if_pos d8] at h
                        rw [op_math_io _ _ _ _ _ _ _ h]
                        exact hinv
                      · rw [if_neg d8] at h
                        by_cases d9 : op / 4096 = 9
                        · rw [if_pos d9] at h; cases h; exact hinv
                        · rw [if_neg d9] at h
                          by_cases d10 : op / 4096 = 10
                          · rw [if_pos d10] at h; cases h; exact hinv
                          · rw [if_neg d10] at h
                            by_cases d11 : op / 4096 = 11
                            · rw [if_pos d11] at h; cases h; exact hinv
                            · rw [if_neg d11] at h
                              by_cases d12 : op / 4096 = 12
                              · rw [if_pos d12] at h; cases h; exact hinv
                              · rw [if_neg d12] at h
                                by_cases d13 : op / 4096 = 13
                                · rw [if_pos d13] at h
                                  cases hd : draw_sprite io.memory io.display_buffer cpu.index (op % 16) (cpu.registers (op / 256 % 16)) (cpu.registers (op / 16 % 16)) with
                                  | none => rw [hd] at h; cases h
                                  | some p =>
                                    obtain ⟨dd, vf⟩ := p
                                    rw [hd] at h
                                    dsimp only at h
                                    cases h
                                    exact draw_sprite_pixelInv _ _ _ _ _ _ _ _ hd hinv
                                · rw [if_neg d13] at h
                                  by_cases d14 : op / 4096 = 14
                                  · rw [if_pos d14] at h
                                    rw [op_key_io _ _ _ _ _ _ h]
                                    exact hinv
                                  · rw [if_neg d14] at h
                                    by_cases d15 : op / 4096 = 15
                                    · rw [if_pos d15] at h
                                      rw [op_misc_display _ _ _ _ _ _ h]
                                      exact hinv
                                    · rw [if_neg d15] at h
                                      cases h
                                      exact hinv

/-- Witness for C9_binary_pixel_invariant: the alpha byte of pixel 0 in a
fresh display. -/
theorem C9_binary_pixel_invariant_witness :
    (Chip8.new 60).io.display_buffer 3 = 0 ∨ (Chip8.new 60).io.display_buffer 3 = 255 :=
  C9_binary_pixel_invariant.1 60 3 (by decide) (by decide)

/-- Index of the on/off byte of pixel (x, y) in the RGBA buffer:
`4*x + 4*64*y + 3` with the display width 64. -/
def pixAddr (x y : Nat) : Nat := 4 * x + 256 * y + 3

/-- The on/off state of pixel (x, y): 1 when its alpha byte is nonzero. -/
def pix (d : Nat → Nat) (x y : Nat) : Nat := if 0 < d (pixAddr x y) then 1 else 0

theorem pixAddr_inj (c r c2 r2 : Nat) (h1 : c < 64) (h2 : c2 < 64)
    (h : pixAddr c r = pixAddr c2 r2) : c = c2 ∧ r = r2 := by
  unfold pixAddr at h
  omega

theorem pix_le_one (d : Nat → Nat) (c r : Nat) : pix d c r ≤ 1 := by
  unfold pix
  split <;> omega

theorem pix_updf_other (d : Nat → Nat) (a v c r : Nat) (h : pixAddr c r ≠ a) :
    pix (updf d a v) c r = pix d c r := by
  unfold pix
  rw [updf_other _ _ _ _ h]

theorem pix_congr (d2 d : Nat → Nat) (c r : Nat) (h : d2 (pixAddr c r) = d (pixAddr c r)) :
    pix d2 c r = pix d c r := by
  unfold pix
  rw [h]

theorem xor_le_one (a b : Nat) (ha : a ≤ 1) (hb : b ≤ 1) : a ^^^ b ≤ 1 := by
  interval_cases a <;> interval_cases b <;> decide

theorem pix_updf_same (d : Nat → Nat) (c r X : Nat) (hX : X ≤ 1) :
    pix (updf d (pixAddr c r) (if X = 1 then 255 else 0)) c r = X := by
  unfold pix
  rw [updf_same]
  by_cases h : X = 1 <;> simp [h] <;> omega

theorem ite_one_eq_one (c : Prop) [Decidable c] : ((if c then (1 : Nat) else 0) = 1) ↔ c := by
  by_cases h : c <;> simp [h]

/-- Normal form of `xor_bits` at width 64, for a sprite bit that is 0 or 1:
it writes the XOR-ed pixel back (255 or 0) at the wrapped coordinates and
reports a collision exactly when the sprite bit is 1 and the pixel was on. -/
theorem xor_bits_eq (b : Nat) (d : Nat → Nat) (x y : Nat) (hb : b ≤ 1) :
    xor_bits b d x y 64 = (updf d (pixAddr (x % 64) (y % 32)) (if b ^^^ pix d (x % 64) (y % 32) = 1 then 255 else 0), if b = 1 ∧ pix d (x % 64) (y % 32) = 1 then 1 else 0) := by
  have hx : (if 64 ≤ x then x % 64 else x) = x % 64 := by
    split
    · rfl
    · exact (Nat.mod_eq_of_lt (by omega)).symm
  have hy : (if 32 ≤ y then y % 32 else y) = y % 32 := by
    split
    · rfl
    · exact (Nat.mod_eq_of_lt (by omega)).symm
  unfold xor_bits pix pixAddr
  rw [hx, hy]
  have haddr : 4 * (x % 64) + 4 * 64 * (y % 32) + 3 = 4 * (x % 64) + 256 * (y % 32) + 3 := by ring
  rw [haddr]
  by_cases hdb : 0 < d (4 * (x % 64) + 256 * (y % 32) + 3)
  · simp only [hdb, if_true]
    interval_cases b <;> norm_num
  · simp only [hdb, if_false]
    interval_cases b <;> norm_num

/-- Characterization of one sprite row's bit loop: each listed bit is XOR-ed
onto the pixel at its own wrapped column of the wrapped row, nothing else
changes, and the collision flag is 1 exactly when some bit 1 hit a lit
pixel. -/
theorem ite_one_le_one (c : Prop) [Decidable c] : (if c then (1 : Nat) else 0) ≤ 1 := by
  split <;> omega

theorem drawBits_spec : ∀ (bs : List Nat) (d : Nat → Nat) (x y : Nat),
    (∀ b ∈ bs, b ≤ 1) → bs.length ≤ 8 →
    ((∀ j, j < bs.length → pix (drawBits bs d x y).1 ((x + j) % 64) (y % 32) = bs.getD j 0 ^^^ pix d ((x + j) % 64) (y % 32)) ∧
     (∀ a, (∀ j, j < bs.length → a ≠ pixAddr ((x + j) % 64) (y % 32)) → (drawBits bs d x y).1 a = d a) ∧
     ((drawBits bs d x y).2 = 1 ↔ ∃ j, j < bs.length ∧ bs.getD j 0 = 1 ∧ pix d ((x + j) % 64) (y % 32) = 1) ∧
     (drawBits bs d x y).2 ≤ 1) := by
  intro bs
  induction bs with
  | nil =>
    intro d x y hb hlen
    refine ⟨?_, ?_, ?_, ?_⟩
    · intro j hj
      exact absurd hj (by simp)
    · intro a ha
      rfl
    · simp [drawBits]
    · simp [drawBits]
  | cons b bs ih =>
    intro d x y hb hlen
    have hb1 : b ≤ 1 := hb b (List.mem_cons_self b bs)
    have hbs : ∀ v ∈ bs, v ≤ 1 := fun v hv => hb v (List.mem_cons_of_mem b hv)
    have hlen2 : bs.length ≤ 8 := by
      simp only [List.length_cons] at hlen
      omega
    have hstep : drawBits (b :: bs) d x y = ((drawBits bs (updf d (pixAddr (x % 64) (y % 32)) (if b ^^^ pix d (x % 64) (y % 32) = 1 then 255 else 0)) (x + 1) y).1, if (if b = 1 ∧ pix d (x % 64) (y % 32) = 1 then (1 : Nat) else 0) = 1 ∨ (drawBits bs (updf d (pixAddr (x % 64) (y % 32)) (if b ^^^ pix d (x % 64) (y % 32) = 1 then 255 else 0)) (x + 1) y).2 = 1 then 1 else 0) := by
      simp only [drawBits, xor_bits_eq b d x y hb1]
    rw [hstep]
    dsimp only
    set P := pix d (x % 64) (y % 32) with hP
    set d1 := updf d (pixAddr (x % 64) (y % 32)) (if b ^^^ P = 1 then 255 else 0) with hd1
    obtain ⟨ih1, ih2, ih3, ih4⟩ := ih d1 (x + 1) y hbs hlen2
    have hcolne : ∀ j, j < bs.length → pixAddr ((x + 1 + j) % 64) (y % 32) ≠ pixAddr (x % 64) (y % 32) := by
      intro j hj heq
      have hc := (pixAddr_inj _ _ _ _ (Nat.mod_lt _ (by omega)) (Nat.mod_lt _ (by omega)) heq).1
      omega
    have hpix1 : ∀ j, j < bs.length → pix d1 ((x + 1 + j) % 64) (y % 32) = pix d ((x + 1 + j) % 64) (y % 32) := by
      intro j hj
      rw [hd1]
      exact pix_updf_other _ _ _ _ _ (hcolne j hj)
    have hPle : P ≤ 1 := pix_le_one d (x % 64) (y % 32)
    have hpix0 : pix d1 (x % 64) (y % 32) = b ^^^ P := by
      rw [hd1]
      exact pix_updf_same d _ _ _ (xor_le_one _ _ hb1 hPle)
    refine ⟨?_, ?_, ?_, ?_⟩
    · intro j hj
      cases j with
      | zero =>
        show pix (drawBits bs d1 (x + 1) y).1 (x % 64) (y % 32) = (b :: bs).getD 0 0 ^^^ pix d (x % 64) (y % 32)
        have hq : (drawBits bs d1 (x + 1) y).1 (pixAddr (x % 64) (y % 32)) = d1 (pixAddr (x % 64) (y % 32)) :=
          ih2 _ (fun j2 hj2 heq => hcolne j2 hj2 heq.symm)
        rw [pix_congr _ _ _ _ hq, hpix0, List.getD_cons_zero, hP]
      | succ j2 =>
        have hxs : x + (j2 + 1) = x + 1 + j2 := by omega
        have hjl : j2 < bs.length := by
          simp only [List.length_cons] at hj
          omega
        rw [hxs, List.getD_cons_succ, ih1 j2 hjl, hpix1 j2 hjl]
    · intro a ha
      have h0 : a ≠ pixAddr (x % 64) (y % 32) := ha 0 (by simp)
      have hrest : ∀ j2, j2 < bs.length → a ≠ pixAddr ((x + 1 + j2) % 64) (y % 32) := by
        intro j2 hj2
        have := ha (j2 + 1) (by simp only [List.length_cons]; omega)
        rwa [show x + (j2 + 1) = x + 1 + j2 from by omega] at this
      rw [ih2 a hrest, hd1, updf_other _ _ _ _ h0]
    · rw [ite_one_eq_one]
      constructor
      · rintro (hp | hq)
        · obtain ⟨hb2, hP2⟩ := (ite_one_eq_one _).mp hp
          refine ⟨0, by simp, by simpa using hb2, ?_⟩
          show pix d (x % 64) (y % 32) = 1
          rw [← hP]
          exact hP2
        · obtain ⟨j2, hj2, hbit, hpx⟩ := ih3.mp hq
          refine ⟨j2 + 1, by simp only [List.length_cons]; omega, by simpa using hbit, ?_⟩
          rw [show x + (j2 + 1) = x + 1 + j2 from by omega, ← hpix1 j2 hj2]
          exact hpx
      · rintro ⟨j, hj, hbit, hpx⟩
        cases j with
        | zero =>
          left
          apply (ite_one_eq_one _).mpr
          refine ⟨by simpa using hbit, ?_⟩
          rw [hP]
          exact hpx
        | succ j2 =>
          right
          apply ih3.mpr
          have hjl : j2 < bs.length := by
            simp only [List.length_cons] at hj
            omega
          refine ⟨j2, hjl, by simpa using hbit, ?_⟩
          rw [hpix1 j2 hjl]
          rwa [show x + (j2 + 1) = x + 1 + j2 from by omega] at hpx
    · exact ite_one_le_one _

theorem row_bits_le (byte : Nat) :
    ∀ b ∈ [byte / 128 % 2, byte / 64 % 2, byte / 32 % 2, byte / 16 % 2, byte / 8 % 2, byte / 4 % 2, byte / 2 % 2, byte % 2], b ≤ 1 := by
  intro b hb
  simp only [List.mem_cons, List.not_mem_nil, or_false] at hb
  rcases hb with rfl | rfl | rfl | rfl | rfl | rfl | rfl | rfl <;> omega

theorem row_bits_getD (byte : Nat) : ∀ j, j < 8 →
    ([byte / 128 % 2, byte / 64 % 2, byte / 32 % 2, byte / 16 % 2, byte / 8 % 2, byte / 4 % 2, byte / 2 % 2, byte % 2] : List Nat).getD j 0 = byte / 2 ^ (7 - j) % 2 := by
  intro j hj
  interval_cases j <;> norm_num

/-- Characterization of one sprite row: bit 7-j of the byte is XOR-ed onto
the pixel at wrapped column x+j of the wrapped row y, nothing else changes,
and the row collision flag is 1 exactly when some 1-bit hit a lit pixel. -/
theorem draw_row_spec (byte : Nat) (d : Nat → Nat) (x y : Nat) :
    ((∀ j, j < 8 → pix (draw_row byte d x y).1 ((x + j) % 64) (y % 32) = byte / 2 ^ (7 - j) % 2 ^^^ pix d ((x + j) % 64) (y % 32)) ∧
     (∀ a, (∀ j, j < 8 → a ≠ pixAddr ((x + j) % 64) (y % 32)) → (draw_row byte d x y).1 a = d a) ∧
     ((draw_row byte d x y).2 = 1 ↔ ∃ j, j < 8 ∧ byte / 2 ^ (7 - j) % 2 = 1 ∧ pix d ((x + j) % 64) (y % 32) = 1) ∧
     (draw_row byte d x y).2 ≤ 1) := by
  obtain ⟨s1, s2, s3, s4⟩ := drawBits_spec [byte / 128 % 2, byte / 64 % 2, byte / 32 % 2, byte / 16 % 2, byte / 8 % 2, byte / 4 % 2, byte / 2 % 2, byte % 2] d x y (row_bits_le byte) (by norm_num)
  refine ⟨?_, ?_, ?_, s4⟩
  · intro j hj
    have hs := s1 j (by simpa using hj)
    rw [row_bits_getD byte j hj] at hs
    exact hs
  · intro a ha
    exact s2 a (fun j hj => ha j (by simpa using hj))
  · constructor
    · intro h
      obtain ⟨j, hj, hbit, hpx⟩ := s3.mp h
      have hj8 : j < 8 := by simpa using hj
      rw [row_bits_getD byte j hj8] at hbit
      exact ⟨j, hj8, hbit, hpx⟩
    · rintro ⟨j, hj, hbit, hpx⟩
      apply s3.mpr
      refine ⟨j, by simpa using hj, ?_, hpx⟩
      rw [row_bits_getD byte j hj]
      exact hbit

/-- Characterization of the full sprite row loop: byte i's bit 7-j is
XOR-ed onto the pixel at wrapped column x+j of wrapped row y+i, nothing
else changes, and the collision flag is 1 exactly when some drawn 1-bit
hit a lit pixel. -/
theorem draw_rows_spec : ∀ (bytes : List Nat) (d : Nat → Nat) (x y : Nat), bytes.length ≤ 15 →
    ((∀ i j, i < bytes.length → j < 8 → pix (draw_rows bytes d x y).1 ((x + j) % 64) ((y + i) % 32) = bytes.getD i 0 / 2 ^ (7 - j) % 2 ^^^ pix d ((x + j) % 64) ((y + i) % 32)) ∧
     (∀ a, (∀ i j, i < bytes.length → j < 8 → a ≠ pixAddr ((x + j) % 64) ((y + i) % 32)) → (draw_rows bytes d x y).1 a = d a) ∧
     ((draw_rows bytes d x y).2 = 1 ↔ ∃ i j, i < bytes.length ∧ j < 8 ∧ bytes.getD i 0 / 2 ^ (7 - j) % 2 = 1 ∧ pix d ((x + j) % 64) ((y + i) % 32) = 1) ∧
     (draw_rows bytes d x y).2 ≤ 1) := by
  intro bytes
  induction bytes with
  | nil =>
    intro d x y hlen
    refine ⟨?_, ?_, ?_, ?_⟩
    · intro i j hi
      exact absurd hi (by simp)
    · intro a ha
      rfl
    · simp [draw_rows]
    · simp [draw_rows]
  | cons c cs ih =>
    intro d x y hlen
    have hlen2 : cs.length ≤ 15 := by
      simp only [List.length_cons] at hlen
      omega
    have hstep : draw_rows (c :: cs) d x y = ((draw_rows cs (draw_row c d x y).1 x (y + 1)).1, if (draw_row c d x y).2 = 1 ∨ (draw_rows cs (draw_row c d x y).1 x (y + 1)).2 = 1 then 1 else 0) := by
      simp only [draw_rows]
    rw [hstep]
    dsimp only
    set d1 := (draw_row c d x y).1 with hd1
    obtain ⟨r1, r2, r3, r4⟩ := draw_row_spec c d x y
    obtain ⟨ihA, ihB, ihC, ihD⟩ := ih d1 x (y + 1) hlen2
    have hrowne : ∀ i, i < cs.length → ∀ c1 c2, c1 < 64 → c2 < 64 → pixAddr c1 ((y + 1 + i) % 32) ≠ pixAddr c2 (y % 32) := by
      intro i hi c1 c2 h1 h2 heq
      have hins := pixAddr_inj _ _ _ _ h1 h2 heq
      omega
    have hd1at : ∀ i j, i < cs.length → j < 8 → d1 (pixAddr ((x + j) % 64) ((y + 1 + i) % 32)) = d (pixAddr ((x + j) % 64) ((y + 1 + i) % 32)) := by
      intro i j hi hj
      exact r2 _ (fun j2 hj2 => hrowne i hi _ _ (Nat.mod_lt _ (by omega)) (Nat.mod_lt _ (by omega)))
    have hpixt : ∀ i j, i < cs.length → j < 8 → pix d1 ((x + j) % 64) ((y + 1 + i) % 32) = pix d ((x + j) % 64) ((y + 1 + i) % 32) := by
      intro i j hi hj
      exact pix_congr _ _ _ _ (hd1at i j hi hj)
    refine ⟨?_, ?_, ?_, ?_⟩
    · intro i j hi hj
      cases i with
      | zero =>
        show pix (draw_rows cs d1 x (y + 1)).1 ((x + j) % 64) (y % 32) = (c :: cs).getD 0 0 / 2 ^ (7 - j) % 2 ^^^ pix d ((x + j) % 64) (y % 32)
        have hq : (draw_rows cs d1 x (y + 1)).1 (pixAddr ((x + j) % 64) (y % 32)) = d1 (pixAddr ((x + j) % 64) (y % 32)) :=
          ihB _ (fun i2 j2 hi2 hj2 heq => hrowne i2 hi2 _ _ (Nat.mod_lt _ (by omega)) (Nat.mod_lt _ (by omega)) heq.symm)
        rw [pix_congr _ _ _ _ hq, List.getD_cons_zero]
        exact r1 j hj
      | succ i2 =>
        have hys : y + (i2 + 1) = y + 1 + i2 := by omega
        have hi2 : i2 < cs.length := by
          simp only [List.length_cons] at hi
          omega
        rw [hys, List.getD_cons_succ, ihA i2 j hi2 hj, hpixt i2 j hi2 hj]
    · intro a ha
      have h0 : ∀ j, j < 8 → a ≠ pixAddr ((x + j) % 64) (y % 32) := fun j hj => ha 0 j (by simp) hj
      have hrest : ∀ i2 j, i2 < cs.length → j < 8 → a ≠ pixAddr ((x + j) % 64) ((y + 1 + i2) % 32) := by
        intro i2 j hi2 hj
        have hha := ha (i2 + 1) j (by simp only [List.length_cons]; omega) hj
        rwa [show y + (i2 + 1) = y + 1 + i2 from by omega] at hha
      rw [ihB a (fun i2 j hi2 hj => hrest i2 j hi2 hj)]
      exact r2 a h0
    · rw [ite_one_eq_one]
      constructor
      · rintro (hp | hq)
        · obtain ⟨j, hj, hbit, hpx⟩ := r3.mp hp
          exact ⟨0, j, by simp, hj, by simpa using hbit, hpx⟩
        · obtain ⟨i2, j, hi2, hj, hbit, hpx⟩ := ihC.mp hq
          refine ⟨i2 + 1, j, by simp only [List.length_cons]; omega, hj, by simpa using hbit, ?_⟩
          rw [show y + (i2 + 1) = y + 1 + i2 from by omega, ← hpixt i2 j hi2 hj]
          exact hpx
      · rintro ⟨i, j, hi, hj, hbit, hpx⟩
        cases i with
        | zero =>
          left
          apply r3.mpr
          exact ⟨j, hj, by simpa using hbit, hpx⟩
        | succ i2 =>
          right
          apply ihC.mpr
          have hi2 : i2 < cs.length := by
            simp only [List.length_cons] at hi
            omega
          refine ⟨i2, j, hi2, hj, by simpa using hbit, ?_⟩
          rw [hpixt i2 j hi2 hj]
          rwa [show y + (i2 + 1) = y + 1 + i2 from by omega] at hpx
    · exact ite_one_le_one _

theorem range_map_getD (f : Nat → Nat) (n i : Nat) (hi : i < n) :
    ((List.range n).map f).getD i 0 = f i := by
  have hl : ((List.range n).map f).length = n := by simp
  rw [List.getD_eq_getElem _ _ (by rw [hl]; exact hi)]
  simp

def c6mem : Nat → Nat := updf (fun _ => 0) 0 255

def c6d0 : Nat → Nat := (Chip8.new 60).io.display_buffer

theorem c6d0_off (c r : Nat) : pix c6d0 c r = 0 := by
  unfold pix c6d0 pixAddr Chip8.new
  dsimp only
  rw [if_pos (show (4 * c + 256 * r + 3 + 1) % 4 = 0 from by omega)]
  norm_num

theorem bits255 : ∀ j, j < 8 → (255 : Nat) / 2 ^ (7 - j) % 2 = 1 := by
  intro j hj
  interval_cases j <;> norm_num

/-- C6: sprite drawing XORs each sprite bit onto the display with x wrapped
mod 64 and y wrapped mod 32 independently per pixel, changes nothing else,
and returns a collision flag that is 1 iff some 1-bit of the sprite hit a
lit pixel (a pixel went on to off); in particular, drawing the byte 0xFF at
(60, 0) on a cleared display lights exactly columns 60..63 and 0..3 of row
0 with flag 0, and drawing it again turns all eight off with flag 1. -/
theorem C6_draw_sprite_xor :
    (∀ (mem d : Nat → Nat) (idx size x y : Nat), 1 ≤ size → size ≤ 15 → idx + size ≤ 4096 →
      ∀ d2 vf, draw_sprite mem d idx size x y = some (d2, vf) →
        ((∀ i j, i < size → j < 8 → pix d2 ((x + j) % 64) ((y + i) % 32) = mem (idx + i) % 256 / 2 ^ (7 - j) % 2 ^^^ pix d ((x + j) % 64) ((y + i) % 32)) ∧
         (∀ a, (∀ i j, i < size → j < 8 → a ≠ pixAddr ((x + j) % 64) ((y + i) % 32)) → d2 a = d a) ∧
         (vf = 1 ↔ ∃ i j, i < size ∧ j < 8 ∧ mem (idx + i) % 256 / 2 ^ (7 - j) % 2 = 1 ∧ pix d ((x + j) % 64) ((y + i) % 32) = 1) ∧
         vf ≤ 1)) ∧
    (∀ d2 vf, draw_sprite c6mem c6d0 0 1 60 0 = some (d2, vf) →
      ((∀ c r, c < 64 → r < 32 → pix d2 c r = if r = 0 ∧ (60 ≤ c ∨ c ≤ 3) then 1 else 0) ∧ vf = 0 ∧
       (∀ d3 vf2, draw_sprite c6mem d2 0 1 60 0 = some (d3, vf2) →
         (∀ c r, c < 64 → r < 32 → pix d3 c r = 0) ∧ vf2 = 1))) := by
  have hgen : ∀ (mem d : Nat → Nat) (idx size x y : Nat), 1 ≤ size → size ≤ 15 → idx + size ≤ 4096 →
      ∀ d2 vf, draw_sprite mem d idx size x y = some (d2, vf) →
        ((∀ i j, i < size → j < 8 → pix d2 ((x + j) % 64) ((y + i) % 32) = mem (idx + i) % 256 / 2 ^ (7 - j) % 2 ^^^ pix d ((x + j) % 64) ((y + i) % 32)) ∧
         (∀ a, (∀ i j, i < size → j < 8 → a ≠ pixAddr ((x + j) % 64) ((y + i) % 32)) → d2 a = d a) ∧
         (vf = 1 ↔ ∃ i j, i < size ∧ j < 8 ∧ mem (idx + i) % 256 / 2 ^ (7 - j) % 2 = 1 ∧ pix d ((x + j) % 64) ((y + i) % 32) = 1) ∧
         vf ≤ 1) := by
    intro mem d idx size x y h1 h15 hmem d2 vf hds
    unfold draw_sprite at hds
    rw [if_pos hmem] at hds
    have hpair := Option.some.inj hds
    have hd2 : (draw_rows ((List.range size).map fun i => mem (idx + i) % 256) d x y).1 = d2 := congrArg Prod.fst hpair
    have hvf : (draw_rows ((List.range size).map fun i => mem (idx + i) % 256) d x y).2 = vf := congrArg Prod.snd hpair
    obtain ⟨A, B, C, D⟩ := draw_rows_spec ((List.range size).map fun i => mem (idx + i) % 256) d x y (by simpa using h15)
    refine ⟨?_, ?_, ?_, ?_⟩
    · intro i j hi hj
      rw [← hd2]
      have hA := A i j (by simpa using hi) hj
      rwa [range_map_getD _ _ _ hi] at hA
    · intro a ha
      rw [← hd2]
      exact B a (fun i j hi hj => ha i j (by simpa using hi) hj)
    · rw [← hvf]
      constructor
      · intro h
        obtain ⟨i, j, hi, hj, hbit, hpx⟩ := C.mp h
        have hi2 : i < size := by simpa using hi
        rw [range_map_getD _ _ _ hi2] at hbit
        exact ⟨i, j, hi2, hj, hbit, hpx⟩
      · rintro ⟨i, j, hi, hj, hbit, hpx⟩
        apply C.mpr
        refine ⟨i, j, by simpa using hi, hj, ?_, hpx⟩
        rw [range_map_getD _ _ _ hi]
        exact hbit
    · rw [← hvf]
      exact D
  refine ⟨hgen, ?_⟩
  intro d2 vf hds
  obtain ⟨P1, U1, V1, L1⟩ := hgen c6mem c6d0 0 1 60 0 (by omega) (by omega) (by omega) d2 vf hds
  have hmem0 : c6mem (0 + 0) % 256 = 255 := by norm_num [c6mem, updf]
  have hchar : ∀ c r, c < 64 → r < 32 → pix d2 c r = if r = 0 ∧ (60 ≤ c ∨ c ≤ 3) then 1 else 0 := by
    intro c r hc hr
    by_cases hr0 : r = 0
    · subst hr0
      by_cases hcset : 60 ≤ c ∨ c ≤ 3
      · rw [if_pos ⟨rfl, hcset⟩]
        have hj : (if 60 ≤ c then c - 60 else c + 4) < 8 := by
          by_cases h60 : 60 ≤ c
          · rw [if_pos h60]; omega
          · rw [if_neg h60]; omega
        have hcol : (60 + (if 60 ≤ c then c - 60 else c + 4)) % 64 = c := by
          by_cases h60 : 60 ≤ c
          · rw [if_pos h60]; omega
          · rw [if_neg h60]; omega
        have hp := P1 0 (if 60 ≤ c then c - 60 else c + 4) (by omega) hj
        rw [hcol] at hp
        have hbit : c6mem (0 + 0) % 256 / 2 ^ (7 - (if 60 ≤ c then c - 60 else c + 4)) % 2 = 1 := by
          rw [hmem0]
          exact bits255 _ hj
        rw [hbit, c6d0_off] at hp
        simpa using hp
      · rw [if_neg (fun hand => hcset hand.2)]
        have hu : d2 (pixAddr c 0) = c6d0 (pixAddr c 0) := by
          apply U1
          intro i j hi hj heq
          have hinj := pixAddr_inj _ _ _ _ hc (Nat.mod_lt _ (by omega)) heq
          have hcc : c = (60 + j) % 64 := hinj.1
          omega
        have hpc := pix_congr _ _ _ _ hu
        rw [hpc, c6d0_off]
    · rw [if_neg (fun hand => hr0 hand.1)]
      have hu : d2 (pixAddr c r) = c6d0 (pixAddr c r) := by
        apply U1
        intro i j hi hj heq
        have hi0 : i = 0 := by omega
        subst hi0
        have hinj := pixAddr_inj _ _ _ _ hc (Nat.mod_lt _ (by omega)) heq
        have hrr : r = (0 + 0) % 32 := hinj.2
        omega
      have hpc := pix_congr _ _ _ _ hu
      rw [hpc, c6d0_off]
  refine ⟨hchar, ?_, ?_⟩
  · have hne : ¬(vf = 1) := by
      rw [V1]
      rintro ⟨i, j, hi, hj, hbit, hpx⟩
      rw [c6d0_off] at hpx
      exact absurd hpx (by norm_num)
    omega
  · intro d3 vf2 hds2
    obtain ⟨P2, U2, V2, L2⟩ := hgen c6mem d2 0 1 60 0 (by omega) (by omega) (by omega) d3 vf2 hds2
    constructor
    · intro c r hc hr
      by_cases hr0 : r = 0
      · subst hr0
        by_cases hcset : 60 ≤ c ∨ c ≤ 3
        · have hj : (if 60 ≤ c then c - 60 else c + 4) < 8 := by
            by_cases h60 : 60 ≤ c
            · rw [if_pos h60]; omega
            · rw [if_neg h60]; omega
          have hcol : (60 + (if 60 ≤ c then c - 60 else c + 4)) % 64 = c := by
            by_cases h60 : 60 ≤ c
            · rw [if_pos h60]; omega
            · rw [if_neg h60]; omega
          have hp := P2 0 (if 60 ≤ c then c - 60 else c + 4) (by omega) hj
          rw [hcol] at hp
          have hbit : c6mem (0 + 0) % 256 / 2 ^ (7 - (if 60 ≤ c then c - 60 else c + 4)) % 2 = 1 := by
            rw [hmem0]
            exact bits255 _ hj
          have hon : pix d2 c ((0 + 0) % 32) = 1 := by
            have hcr := hchar c 0 hc (by omega)
            rw [if_pos ⟨rfl, hcset⟩] at hcr
            exact hcr
          rw [hbit, hon] at hp
          simpa using hp
        · have hu : d3 (pixAddr c 0) = d2 (pixAddr c 0) := by
            apply U2
            intro i j hi hj heq
            have hinj := pixAddr_inj _ _ _ _ hc (Nat.mod_lt _ (by omega)) heq
            have hcc : c = (60 + j) % 64 := hinj.1
            omega
          have hpc := pix_congr _ _ _ _ hu
          rw [hpc]
          have hcr := hchar c 0 hc (by omega)
          rw [if_neg (fun hand => hcset hand.2)] at hcr
          exact hcr
      · have hu : d3 (pixAddr c r) = d2 (pixAddr c r) := by
          apply U2
          intro i j hi hj heq
          have hi0 : i = 0 := by omega
          subst hi0
          have hinj := pixAddr_inj _ _ _ _ hc (Nat.mod_lt _ (by omega)) heq
          have hrr : r = (0 + 0) % 32 := hinj.2
          omega
        have hpc := pix_congr _ _ _ _ hu
        rw [hpc]
        have hcr := hchar c r hc hr
        rw [if_neg (fun hand => hr0 hand.1)] at hcr
        exact hcr
    · apply V2.mpr
      refine ⟨0, 0, by omega, by omega, by rw [hmem0]; norm_num, ?_⟩
      have hcr := hchar 60 0 (by omega) (by omega)
      rw [if_pos ⟨rfl, Or.inl (by omega)⟩] at hcr
      exact hcr

/-- Witness for C6_draw_sprite_xor: the concrete 0xFF draw at (60, 0) lights
pixel (60, 0) and reports no collision. -/
theorem C6_draw_sprite_xor_witness :
    (draw_sprite c6mem c6d0 0 1 60 0).map (fun p => pix p.1 60 0) = some 1 ∧
    (draw_sprite c6mem c6d0 0 1 60 0).map Prod.snd = some 0 := by
  have hs : (draw_sprite c6mem c6d0 0 1 60 0).isSome = true := by decide
  cases hd : draw_sprite c6mem c6d0 0 1 60 0 with
  | none =>
    rw [hd] at hs
    cases hs
  | some p =>
    obtain ⟨d2, vf⟩ := p
    obtain ⟨hchar, hvf, _⟩ := C6_draw_sprite_xor.2 d2 vf hd
    constructor
    · show some (pix d2 60 0) = some 1
      have hcr := hchar 60 0 (by omega) (by omega)
      rw [if_pos ⟨rfl, Or.inl (by omega)⟩] at hcr
      rw [hcr]
    · show some vf = some 0
      rw [hvf]
